import Mathlib

/-!
Verification of the NetDash measurement and aggregation engine.

The definitions below are a shallow embedding of the speed-test engine found
in the repository (the `runSpeedTest`, `saveResult`, `loadHistory`, `getQoS`
and related functions of the main app component).  JavaScript numbers are
modelled as rationals; `Math.round` is modelled exactly (round half toward
positive infinity).  The asynchronous run is modelled as a deterministic
interpreter over an environment that supplies the outcome of every network
probe, every throughput batch, and the connection-quality hint.
-/

/-- JavaScript `Math.round`: round half up, i.e. the floor of `q + 1/2`. -/
def jsRound (q : ℚ) : ℤ := ⌊q + 1/2⌋

/-- Arithmetic mean of a list of rationals (`xs.reduce((a,b)=>a+b)/xs.length`).
For the empty list this is `0/0 = 0` in Lean; the engine never takes the mean
of an empty list on any path where the JS `reduce` would not throw. -/
def mean (l : List ℚ) : ℚ := l.sum / (l.length : ℚ)

/-- `Math.min(...xs)` over a nonempty sample list (0 for the empty list,
which the engine never passes). -/
def minQ : List ℚ → ℚ
  | [] => 0
  | [x] => x
  | x :: y :: t => min x (minQ (y :: t))

/-- `Math.max(...xs)` over a nonempty sample list (0 for the empty list,
which the engine never passes). -/
def maxQ : List ℚ → ℚ
  | [] => 0
  | [x] => x
  | x :: y :: t => max x (maxQ (y :: t))

/-- Log entry kind (error, success or info). -/
inductive LogType
  | error
  | success
  | info
deriving DecidableEq

/-- `LogEntry` without the wall-clock display string (the `time` field is an
opaque display value produced by the wall clock and plays no role in any
claim). -/
structure LogEntry where
  type : LogType
  message : String
deriving DecidableEq

/-- `SpeedTestResult` as persisted in the Result History. -/
structure SpeedTestResult where
  id : ℕ
  date : String
  download : ℤ
  upload : ℤ
  ping : ℤ
  isp : String
deriving DecidableEq

/-- The live `metrics` record.  Every value the engine ever stores in it is an
integer (each assignment goes through `Math.round` or `Math.max` of integers),
so the fields are modelled as `ℤ`. -/
structure Metrics where
  download : ℤ
  upload : ℤ
  ping : ℤ
  jitter : ℤ
  signalStrength : ℤ
deriving DecidableEq

/-- The shared mutable dashboard state that a run mutates. -/
structure DashState where
  testing : Bool
  progress : ℚ
  metrics : Metrics
  history : List SpeedTestResult
  logs : List LogEntry
deriving DecidableEq

/-- `addLog`: prepend a log entry and truncate the Event Log to 50 entries. -/
def addLog (t : LogType) (msg : String) (s : DashState) : DashState :=
  { s with logs := (⟨t, msg⟩ :: s.logs).take 50 }

/-- The list operation of `saveResult`: `[newEntry, ...history].slice(0, 10)`. -/
def saveResultList (e : SpeedTestResult) (h : List SpeedTestResult) :
    List SpeedTestResult :=
  (e :: h).take 10

/-- `loadHistory`: if the durable store holds a value that parses to an array
of results, replace the in-memory history with it verbatim; otherwise leave
the state unchanged.  (JSON decoding itself is external to the engine; the
store is modelled as already parsed.) -/
def loadHistory (stored : Option (List SpeedTestResult)) (s : DashState) :
    DashState :=
  match stored with
  | some l => { s with history := l }
  | none => s

/-- Latency aggregation: `Math.round(pings.reduce((a,b)=>a+b)/pings.length)`. -/
def avgPingOf (pings : List ℚ) : ℤ := jsRound (mean pings)

/-- Latency aggregation:
`Math.round(Math.max(...pings) - Math.min(...pings))`. -/
def jitterOf (pings : List ℚ) : ℤ := jsRound (maxQ pings - minQ pings)

/-- Final throughput aggregation of `runSpeedTest`: sort the samples
ascending; if more than two were collected, drop the first and last
(`samples.slice(1, -1)`) and round the mean of the rest; otherwise round the
mean of all of them.  JavaScript `[].reduce` with no initial value throws, so
the empty sample list is an error (caught by the surrounding `try`). -/
def finalAggregate (samples : List ℚ) : Except Unit ℤ :=
  let sorted := List.insertionSort (· ≤ ·) samples
  if 2 < sorted.length then
    Except.ok (jsRound (mean (sorted.drop 1).dropLast))
  else
    match sorted with
    | [] => Except.error ()
    | _ => Except.ok (jsRound (mean sorted))

/-- Modelled from the spec: the trimmed mean the specification describes for
final throughput aggregation — sort samples ascending; with 3 or more
samples, drop the single lowest and single highest sample and average the
remainder; with exactly 1 or 2 samples, average all of them.  Comparison
point for claim C1. -/
def trimmedMeanSpec (samples : List ℚ) : ℚ :=
  let sorted := List.insertionSort (· ≤ ·) samples
  if 3 ≤ sorted.length then mean (sorted.drop 1).dropLast
  else mean sorted

/-- The upload estimator of `runSpeedTest`:
`ratio = (connection?.rtt < 15) ? 0.8 : 0.2` followed by
`Math.round(finalSpeedMbps * ratio)`.
When the connection hint is absent (`connection` is `undefined`), the
JavaScript comparison `undefined < 15` is false, so the fixed default factor
`0.2` applies; the measured ping is not consulted anywhere. -/
def estimateUpload (finalSpeed : ℤ) (rtt : Option ℚ) : ℤ :=
  let r : ℚ :=
    match rtt with
    | some v => if v < 15 then 4/5 else 1/5
    | none => 1/5
  jsRound ((finalSpeed : ℚ) * r)

/-- One QoS verdict: a capability name with a pass/fail flag. -/
structure QoSItem where
  name : String
  pass : Bool
deriving DecidableEq

/-- `getQoS`: the QoS classifier, a pure function of the current metrics. -/
def getQoS (m : Metrics) : List QoSItem :=
  [ ⟨"4K Streaming", decide (m.download > 25)⟩,
    ⟨"Online Gaming", decide (m.ping < 50) && decide (m.ping > 0)⟩,
    ⟨"Video Calls", decide (m.download > 10) && decide (m.upload > 2)⟩,
    ⟨"Large Files", decide (m.download > 50)⟩ ]

/-- State of the display ramp timer: the hidden accumulator (`upCurrent`),
the displayed metric value, and whether the interval is still active. -/
structure RampSt where
  current : ℚ
  displayed : ℤ
  active : Bool
deriving DecidableEq

/-- One tick of the display ramp
(`upCurrent += upStep; if (upCurrent >= target) {clearInterval; show target}
else {show Math.round(upCurrent)}`), with step `target/20`. -/
def rampTick (target : ℤ) (st : RampSt) : RampSt :=
  if st.active then
    let c := st.current + (target : ℚ) / 20
    if (target : ℚ) ≤ c then ⟨c, target, false⟩
    else ⟨c, jsRound c, true⟩
  else st

/-- The display ramp after `k` timer ticks, starting from accumulator 0,
displayed value 0, timer active. -/
def rampIter (target : ℤ) (k : ℕ) : RampSt :=
  (rampTick target)^[k] ⟨0, 0, true⟩

/-- Environment of one run: outcome of each sequential latency probe
(round-trip ms or network failure), outcome of each successive throughput
batch (batch duration in ms, or failure of a batch member), the optional
connection-quality hint (`connection.rtt`), and the opaque display inputs
(ISP string, `Date.now()` token, date string). -/
structure Env where
  ping : ℕ → Except Unit ℚ
  batches : List (Except Unit ℚ)
  rtt : Option ℚ
  isp : String
  idNow : ℕ
  dateStr : String

/-- Build the persisted result record from the final metrics
(`{id: Date.now(), date, download, upload, ping, isp}`). -/
def mkResult (env : Env) (fr : Metrics) : SpeedTestResult :=
  ⟨env.idNow, env.dateStr, fr.download, fr.upload, fr.ping, env.isp⟩

/-- The latency loop of `runSpeedTest`
(`for i in 0..9: await fetch(probe); pings.push(rtt); setProgress(5 + i)`).
Returns the updated state, the progress trace (most recent first) and
`some pings` on success, or `none` when a probe rejects — in which case the
exception propagates out of the loop uncaught. -/
def latLoop (env : Env) :
    ℕ → ℕ → List ℚ → DashState → List ℚ →
    DashState × List ℚ × Option (List ℚ)
  | _, 0, pings, s, tr => (s, tr, some pings)
  | i, fuel+1, pings, s, tr =>
    match env.ping i with
    | Except.error _ => (s, tr, none)
    | Except.ok r =>
      latLoop env (i+1) fuel (pings ++ [r])
        { s with progress := 5 + (i : ℚ) } ((5 + (i : ℚ)) :: tr)

/-- The time-boxed download loop of `runSpeedTest`: while the elapsed time is
below the 6000 ms budget, run one 6-stream batch of fetches of the 5 MB
(41943040-bit) resource; on success derive the bandwidth sample
`(bits*streams)/durationSec/1024/1024`, publish the running mean as the live
download metric and update progress to `min(20 + (elapsed/6000)*60, 80)`;
a rejected batch member makes `Promise.all` reject (`none`). -/
def dlLoop :
    List (Except Unit ℚ) → ℚ → List ℚ → DashState → List ℚ →
    DashState × List ℚ × Option (List ℚ)
  | [], _, samples, s, tr => (s, tr, some samples)
  | b :: rest, elapsed, samples, s, tr =>
    if elapsed < 6000 then
      match b with
      | Except.error _ => (s, tr, none)
      | Except.ok dur =>
        let speed := ((41943040 * 6 : ℚ) / (dur / 1000)) / 1024 / 1024
        let samples2 := samples ++ [speed]
        let s2 :=
          { s with metrics := { s.metrics with download := jsRound (mean samples2) } }
        let elapsed2 := elapsed + dur
        let p := min (20 + (elapsed2 / 6000) * 60) 80
        dlLoop rest elapsed2 samples2 { s2 with progress := p } (p :: tr)
    else (s, tr, some samples)

/-- Whether the download loop hits a rejected batch before its time budget is
spent (a pure restatement of the failure condition of `dlLoop`). -/
def dlFails : List (Except Unit ℚ) → ℚ → Bool
  | [], _ => false
  | b :: rest, elapsed =>
    if elapsed < 6000 then
      match b with
      | Except.error _ => true
      | Except.ok dur => dlFails rest (elapsed + dur)
    else false

/-- The upload display ramp inside `runSpeedTest`: every 100 ms tick adds
`simulatedUpload/20` to the accumulator, displays the rounded accumulator (or
snaps to the target and stops), and bumps progress by 1 capped at 100.  The
fuel of 25 models the 2500 ms timeout that unconditionally clears the
interval; the ramp always self-terminates within 20 ticks. -/
def upRampLoop (target : ℤ) :
    ℕ → ℚ → DashState → List ℚ → DashState × List ℚ
  | 0, _, s, tr => (s, tr)
  | fuel+1, cur, s, tr =>
    let c := cur + (target : ℚ) / 20
    if (target : ℚ) ≤ c then
      let s2 := { s with metrics := { s.metrics with upload := target } }
      let p := min (s2.progress + 1) 100
      ({ s2 with progress := p }, p :: tr)
    else
      let s2 := { s with metrics := { s.metrics with upload := jsRound c } }
      let p := min (s2.progress + 1) 100
      upRampLoop target fuel c { s2 with progress := p } (p :: tr)

/-- Outcome of one invocation of the run operation: skipped because a run was
already active; completed normally; aborted by the `catch` block around the
throughput phase; or terminated by an exception that escaped to the caller. -/
inductive RunOutcome
  | skipped
  | completed
  | caught
  | escaped
deriving DecidableEq

/-- The state produced by the `catch` block of `runSpeedTest`: an error event
is logged and the exclusive `testing` flag is released (progress is not
touched). -/
def catchState (s : DashState) : DashState :=
  { addLog LogType.error ("Speed test failed (CORS/Network Error)") s with
      testing := false }

/-- The run-start bookkeeping of `runSpeedTest`: `setTesting(true);
setProgress(0); setMetrics(download/upload/ping/jitter := 0); addLog info`. -/
def startState (s0 : DashState) : DashState :=
  let s1 := { s0 with testing := true }
  let s2 := { s1 with progress := 0 }
  let s3 :=
    { s2 with metrics :=
        { s2.metrics with download := 0, upload := 0, ping := 0, jitter := 0 } }
  addLog LogType.info ("Starting Precision Diagnostics...") s3

/-- Publication of the latency aggregates
(`setMetrics(ping := avgPing, jitter := jitter)`). -/
def pingState (pings : List ℚ) (s : DashState) : DashState :=
  { s with metrics :=
      { s.metrics with ping := avgPingOf pings, jitter := jitterOf pings } }

/-- The tail of `runSpeedTest` after throughput sampling succeeded: final
aggregation (whose `reduce` throws on an empty sample list, landing in the
`catch` block), the simulated upload ramp, and the terminal bookkeeping
(`setTesting(false); setProgress(100); setMetrics(finalResults);
saveResult(finalResults); addLog success`). -/
def runAfterSamples (env : Env) (avgP jit : ℤ) (samples : List ℚ)
    (s : DashState) (tr : List ℚ) : DashState × RunOutcome × List ℚ :=
  match finalAggregate samples with
  | Except.error _ => (catchState s, RunOutcome.caught, tr)
  | Except.ok finalSpeed =>
    let simUp := estimateUpload finalSpeed env.rtt
    match upRampLoop simUp 25 0
        { s with metrics := { s.metrics with download := finalSpeed } } tr with
    | (s3, tr3) =>
      let fr : Metrics := ⟨finalSpeed, simUp, avgP, jit, max 0 (100 - avgP)⟩
      (addLog LogType.success
          ("Test Complete: " ++ toString finalSpeed ++ " Mbps")
          { s3 with
              testing := false
              progress := 100
              metrics := fr
              history := saveResultList (mkResult env fr) s3.history },
        RunOutcome.completed, (100 : ℚ) :: tr3)

/-- The part of `runSpeedTest` after a fully successful latency phase:
publish ping/jitter, then run the download loop inside `try`; a rejected
batch lands in the `catch` block (error log, release of the `testing` flag,
progress untouched). -/
def runAfterLatency (env : Env) (pings : List ℚ) (s : DashState)
    (tr : List ℚ) : DashState × RunOutcome × List ℚ :=
  match dlLoop env.batches 0 [] (pingState pings s) tr with
  | (s3, tr3, none) => (catchState s3, RunOutcome.caught, tr3)
  | (s3, tr3, some samples) =>
    runAfterSamples env (avgPingOf pings) (jitterOf pings) samples s3 tr3

/-- The whole `runSpeedTest` operation as a deterministic interpreter.
Returns the final dashboard state, the outcome classification, and the trace
of every value assigned to `progress` during the run (most recent first).
A second invocation while `testing` is true returns immediately with the
state untouched.  Note that only the throughput phase sits inside `try`; a
latency-probe rejection escapes `runSpeedTest` uncaught. -/
def runSpeedTest (env : Env) (s0 : DashState) :
    DashState × RunOutcome × List ℚ :=
  if s0.testing then (s0, RunOutcome.skipped, [])
  else
    match latLoop env 0 10 [] (startState s0) [0] with
    | (s5, tr5, none) => (s5, RunOutcome.escaped, tr5)
    | (s5, tr5, some pings) => runAfterLatency env pings s5 tr5

/-- Number of error entries in an event log. -/
def errorCount (l : List LogEntry) : ℕ :=
  l.countP (fun e => decide (e.type = LogType.error))

/-- All ten latency probes of a run succeed. -/
def latOk (env : Env) : Prop :=
  ∀ i < 10, (env.ping i).toOption ≠ none

/-- A progress trace, recorded most recent first, is monotone over time. -/
def Mono (tr : List ℚ) : Prop :=
  tr.Chain' (fun a b => b ≤ a)

/-- An idle dashboard state (no run active), used as a concrete start state. -/
def sIdle : DashState := ⟨false, 0, ⟨0, 0, 0, 0, 0⟩, [], []⟩

/-- A dashboard state with a run already active (`testing = true`). -/
def sBusy : DashState := ⟨true, 0, ⟨0, 0, 0, 0, 0⟩, [], []⟩

/-- A concrete environment whose very first latency probe rejects. -/
def envPingFail : Env :=
  ⟨fun _ => Except.error (), [Except.ok 1000], none, "ISP", 1, "d"⟩

/-- A concrete environment whose latency probes all take 10 ms but whose
first throughput batch rejects. -/
def envBatchFail : Env :=
  ⟨fun _ => Except.ok 10, [Except.error ()], none, "ISP", 1, "d"⟩

/-- A concrete environment for a fully successful run: every latency probe
takes 10 ms and the single throughput batch takes 240000 ms (yielding one
1 Mbps sample and exhausting the 6000 ms budget), with no connection hint. -/
def envGood : Env :=
  ⟨fun _ => Except.ok 10, [Except.ok 240000], none, "ISP", 7, "d"⟩

/-! ### Arithmetic helper lemmas -/

lemma jsRound_nonneg {q : ℚ} (h : 0 ≤ q) : 0 ≤ jsRound q := by
  rw [jsRound]
  exact Int.le_floor.mpr (by push_cast; linarith)

lemma jsRound_le_of_lt {q : ℚ} {t : ℤ} (h : q < t) : jsRound q ≤ t := by
  rw [jsRound]
  have : ⌊q + 1/2⌋ < t + 1 := Int.floor_lt.mpr (by push_cast; linarith)
  omega

lemma minQ_le_of_mem : ∀ (l : List ℚ) (x : ℚ), x ∈ l → minQ l ≤ x := by
  intro l
  induction l with
  | nil => intro x hx; cases hx
  | cons a t ih =>
    intro x hx
    cases t with
    | nil =>
      rcases List.mem_singleton.mp hx with rfl
      simp [minQ]
    | cons b t2 =>
      rcases List.mem_cons.mp hx with rfl | hx2
      · simp only [minQ]
        exact min_le_left _ _
      · exact le_trans (by simp only [minQ]; exact min_le_right _ _) (ih x hx2)

lemma le_maxQ_of_mem : ∀ (l : List ℚ) (x : ℚ), x ∈ l → x ≤ maxQ l := by
  intro l
  induction l with
  | nil => intro x hx; cases hx
  | cons a t ih =>
    intro x hx
    cases t with
    | nil =>
      rcases List.mem_singleton.mp hx with rfl
      simp [maxQ]
    | cons b t2 =>
      rcases List.mem_cons.mp hx with rfl | hx2
      · simp only [maxQ]
        exact le_max_left _ _
      · exact le_trans (ih x hx2) (by simp only [maxQ]; exact le_max_right _ _)

lemma minQ_le_maxQ {l : List ℚ} (h : l ≠ []) : minQ l ≤ maxQ l := by
  match l, h with
  | a :: t, _ =>
    exact le_trans (minQ_le_of_mem _ a (List.mem_cons_self a t))
      (le_maxQ_of_mem _ a (List.mem_cons_self a t))

lemma length_pos_q {l : List ℚ} (h : l ≠ []) : (0 : ℚ) < (l.length : ℚ) := by
  have := List.length_pos.mpr h
  exact_mod_cast this

lemma mean_le_maxQ {l : List ℚ} (h : l ≠ []) : mean l ≤ maxQ l := by
  have hs := List.sum_le_card_nsmul l (maxQ l) (fun x hx => le_maxQ_of_mem l x hx)
  rw [nsmul_eq_mul] at hs
  rw [mean, div_le_iff₀ (length_pos_q h)]
  linarith [hs]

lemma minQ_le_mean {l : List ℚ} (h : l ≠ []) : minQ l ≤ mean l := by
  have hs := List.card_nsmul_le_sum l (minQ l) (fun x hx => minQ_le_of_mem l x hx)
  rw [nsmul_eq_mul] at hs
  rw [mean, le_div_iff₀ (length_pos_q h)]
  linarith [hs]

/-! ### Claim C4 — latency aggregation -/

/-- Claim C4, counterexample: the published ping is the rounded mean, not the
arithmetic mean itself.  With probe round-trip times `[1, 2]` ms the mean is
`3/2` while the engine publishes `2`. -/
theorem published_ping_not_exact_mean :
    avgPingOf [1, 2] = 2 ∧ mean [1, 2] = 3/2 ∧
    ((avgPingOf [1, 2] : ℚ) ≠ mean [1, 2]) := by
  norm_num [avgPingOf, mean, jsRound]

/-- Claim C4 (amended): when all probes complete, the published ping is the
arithmetic mean of the round-trip times rounded to the nearest integer and
the published jitter is `max - min` rounded likewise; the jitter is
nonnegative and the underlying (pre-rounding) mean lies within
`[min, max]`. -/
theorem latency_aggregation_rounded (l : List ℚ) (h : l ≠ []) :
    avgPingOf l = jsRound (mean l) ∧
    jitterOf l = jsRound (maxQ l - minQ l) ∧
    0 ≤ jitterOf l ∧
    minQ l ≤ mean l ∧ mean l ≤ maxQ l :=
  ⟨rfl, rfl,
   jsRound_nonneg (by linarith [minQ_le_maxQ h]),
   minQ_le_mean h, mean_le_maxQ h⟩

/-- Claim C4, witness: the example probe set `[20, 22, 21, 19, 23]` ms yields
published ping 21 and jitter 4. -/
theorem latency_aggregation_rounded_witness :
    ([20, 22, 21, 19, 23] : List ℚ) ≠ [] ∧
    avgPingOf [20, 22, 21, 19, 23] = jsRound (mean [20, 22, 21, 19, 23]) ∧
    0 ≤ jitterOf [20, 22, 21, 19, 23] ∧
    avgPingOf [20, 22, 21, 19, 23] = 21 ∧
    jitterOf [20, 22, 21, 19, 23] = 4 :=
  ⟨by simp,
   (latency_aggregation_rounded [20, 22, 21, 19, 23] (by simp)).1,
   (latency_aggregation_rounded [20, 22, 21, 19, 23] (by simp)).2.2.1,
   by norm_num [avgPingOf, mean, jsRound],
   by norm_num [jitterOf, maxQ, minQ, jsRound]⟩

/-! ### Claim C1 — final throughput aggregation -/

/-- Claim C1, counterexample: the final download figure is the rounded
trimmed mean, not the trimmed mean itself.  For collected samples
`[0, 1, 2, 100]` the ascending-sorted list with its lowest and highest
elements removed is `[1, 2]` with mean `3/2`, but the engine stores `2`. -/
theorem final_download_not_exact_mean :
    finalAggregate [0, 1, 2, 100] = Except.ok 2 ∧
    trimmedMeanSpec [0, 1, 2, 100] = 3/2 ∧
    ((2 : ℚ) ≠ 3/2) := by
  refine ⟨?_, ?_, by norm_num⟩ <;>
    norm_num [finalAggregate, trimmedMeanSpec, List.insertionSort,
      List.orderedInsert, mean, jsRound]

/-- Claim C1 (amended): for every nonempty collected sample list, the final
download figure is the trimmed mean of the spec (sort ascending; with 3 or more
samples drop the single lowest and single highest and average the rest; with
1 or 2 samples average them all) rounded to the nearest integer. -/
theorem final_download_rounded_trimmed_mean (l : List ℚ) (h : l ≠ []) :
    finalAggregate l = Except.ok (jsRound (trimmedMeanSpec l)) := by
  simp only [finalAggregate, trimmedMeanSpec]
  have hlen : (List.insertionSort (· ≤ ·) l).length = l.length :=
    List.length_insertionSort _ l
  by_cases h3 : 2 < (List.insertionSort (· ≤ ·) l).length
  · rw [if_pos h3, if_pos (by omega)]
  · rw [if_neg h3, if_neg (by omega)]
    obtain ⟨a, t, hs⟩ : ∃ a t, List.insertionSort (· ≤ ·) l = a :: t := by
      cases hsort : List.insertionSort (· ≤ ·) l with
      | nil =>
        exfalso
        apply h
        have h0 := hsort ▸ hlen
        exact List.length_eq_zero.mp (by simpa using h0.symm)
      | cons a t => exact ⟨a, t, rfl⟩
    rw [hs]

/-- Claim C1, witness: samples `[10, 12, 100]` Mbps (3 samples, trim applies)
yield final download 12, and `[50, 70]` (2 samples, plain average) yield
60. -/
theorem final_download_rounded_trimmed_mean_witness :
    ([10, 12, 100] : List ℚ) ≠ [] ∧
    finalAggregate [10, 12, 100] =
      Except.ok (jsRound (trimmedMeanSpec [10, 12, 100])) ∧
    finalAggregate [10, 12, 100] = Except.ok 12 ∧
    finalAggregate [50, 70] = Except.ok 60 :=
  ⟨by simp,
   final_download_rounded_trimmed_mean [10, 12, 100] (by simp),
   by norm_num [finalAggregate, List.insertionSort, List.orderedInsert, mean,
     jsRound],
   by norm_num [finalAggregate, List.insertionSort, List.orderedInsert, mean,
     jsRound]⟩

/-! ### Claim C5 — upload estimation (counterexample part) -/

/-- Claim C5, counterexample: the upload figure is the rounded product of the
download figure and the selected factor, not the product itself.  With final
download 1 Mbps and a low-latency hint (rtt 5 < 15, factor 0.8) the product
is `0.8` but the engine stores `1`. -/
theorem upload_not_exact_ratio_product :
    estimateUpload 1 (some 5) = 1 ∧
    ((estimateUpload 1 (some 5) : ℚ) ≠ (1 : ℚ) * (4/5)) := by
  norm_num [estimateUpload, jsRound]

/-! ### Claim C6 — Result History insertion -/

/-- Claim C6: inserting a completed result into the Result History prepends
it at the front, truncates to the first 10 entries (evicting from the tail),
so the history holds at most 10 entries; and if the prior history was ordered
newest-first (nonincreasing creation tokens) and the new entry is at least as
new as all of them, the result is still ordered newest-first. -/
theorem history_insert_bounded_newest_first (e : SpeedTestResult)
    (h : List SpeedTestResult)
    (hsorted : h.Chain' (fun a b => b.id ≤ a.id))
    (hnew : ∀ x ∈ h, x.id ≤ e.id) :
    saveResultList e h = (e :: h).take 10 ∧
    (saveResultList e h).length ≤ 10 ∧
    (saveResultList e h).head? = some e ∧
    (saveResultList e h).Chain' (fun a b => b.id ≤ a.id) := by
  refine ⟨rfl, ?_, ?_, ?_⟩
  · rw [saveResultList]
    exact List.length_take_le 10 (e :: h)
  · rw [saveResultList]
    cases h <;> rfl
  · rw [saveResultList]
    refine List.Chain'.take ?_ 10
    rw [List.chain'_cons']
    exact ⟨fun y hy => hnew y (List.mem_of_mem_head? hy), hsorted⟩

/-- Claim C6, witness: inserting a new result (id 11) into a full newest-first
history of ids `10, ..., 1` keeps the front insertion, the 10-entry bound and
the newest-first order. -/
theorem history_insert_bounded_newest_first_witness :
    (List.Chain' (fun a b => b.id ≤ a.id)
      ((List.range 10).map
        (fun i => (⟨10 - i, "d", 0, 0, 0, "i"⟩ : SpeedTestResult)))) ∧
    (saveResultList ⟨11, "d", 0, 0, 0, "i"⟩
        ((List.range 10).map
          (fun i => (⟨10 - i, "d", 0, 0, 0, "i"⟩ : SpeedTestResult)))).length ≤ 10 ∧
    (saveResultList ⟨11, "d", 0, 0, 0, "i"⟩
        ((List.range 10).map
          (fun i => (⟨10 - i, "d", 0, 0, 0, "i"⟩ : SpeedTestResult)))).head? =
      some ⟨11, "d", 0, 0, 0, "i"⟩ ∧
    (saveResultList ⟨11, "d", 0, 0, 0, "i"⟩
        ((List.range 10).map
          (fun i => (⟨10 - i, "d", 0, 0, 0, "i"⟩ : SpeedTestResult)))).Chain'
      (fun a b => b.id ≤ a.id) := by
  have hs : (List.Chain' (fun a b => b.id ≤ a.id)
      ((List.range 10).map
        (fun i => (⟨10 - i, "d", 0, 0, 0, "i"⟩ : SpeedTestResult)))) := by
    simp [List.range_succ, List.chain'_cons]
  have hn : ∀ x ∈ ((List.range 10).map
      (fun i => (⟨10 - i, "d", 0, 0, 0, "i"⟩ : SpeedTestResult))),
      x.id ≤ (11 : ℕ) := by
    intro x hx
    simp only [List.mem_map, List.mem_range] at hx
    obtain ⟨i, _, rfl⟩ := hx
    show 10 - i ≤ 11
    omega
  have := history_insert_bounded_newest_first ⟨11, "d", 0, 0, 0, "i"⟩
    ((List.range 10).map
      (fun i => (⟨10 - i, "d", 0, 0, 0, "i"⟩ : SpeedTestResult))) hs hn
  exact ⟨hs, this.2.1, this.2.2.1, this.2.2.2⟩

/-! ### Claim C8 — QoS classifier -/

/-- Claim C8: the QoS classifier is a pure function of the current metrics
(it is a plain function with no other input and no effect) returning, in
order, the four fixed verdicts: 4K streaming passes iff download > 25 Mbps,
online gaming passes iff 0 < ping < 50 ms, video calls pass iff download >
10 Mbps and upload > 2 Mbps, and large file transfer passes iff download >
50 Mbps. -/
theorem qos_pure_thresholds (m : Metrics) :
    (getQoS m).map QoSItem.name =
      ["4K Streaming", "Online Gaming", "Video Calls", "Large Files"] ∧
    (getQoS m).map QoSItem.pass =
      [decide (m.download > 25),
       decide (0 < m.ping ∧ m.ping < 50),
       decide (m.download > 10 ∧ m.upload > 2),
       decide (m.download > 50)] := by
  refine ⟨rfl, ?_⟩
  simp [getQoS, Bool.decide_and, Bool.and_comm]

/-! ### Claim C10 — history loading -/

/-- Claim C10: loading a stored history that parses to an array replaces the
in-memory history with exactly that array, with no truncation to the
10-entry bound and no reordering (a stored array longer than 10 entries is
loaded verbatim); an absent stored value leaves the state unchanged. -/
theorem load_history_verbatim (l : List SpeedTestResult) (s : DashState) :
    (loadHistory (some l) s).history = l ∧ loadHistory none s = s :=
  ⟨rfl, rfl⟩

/-! ### Claim C9 — display ramp -/

lemma rampIter_succ (t : ℤ) (k : ℕ) :
    rampIter t (k+1) = rampTick t (rampIter t k) :=
  Function.iterate_succ_apply' _ _ _

lemma ramp_phase (t : ℤ) (ht : 0 < t) :
    ∀ k, k ≤ 20 →
      (rampIter t k).current = (k : ℚ) * (t : ℚ) / 20 ∧
      (k < 20 → (rampIter t k).active = true) ∧
      (k = 20 → (rampIter t k).active = false ∧ (rampIter t k).displayed = t) := by
  intro k
  induction k with
  | zero =>
    intro _
    refine ⟨by simp [rampIter], fun _ => rfl, fun h20 => by omega⟩
  | succ k ih =>
    intro hk1
    obtain ⟨hc, hact, _⟩ := ih (by omega)
    have ha : (rampIter t k).active = true := hact (by omega)
    have ht' : (0 : ℚ) < (t : ℚ) := by exact_mod_cast ht
    have hcc : (rampIter t k).current + (t : ℚ) / 20 =
        ((k+1 : ℕ) : ℚ) * (t : ℚ) / 20 := by
      rw [hc]; push_cast; ring
    rw [rampIter_succ]
    simp only [rampTick, ha, if_true, hcc]
    by_cases hlt : k + 1 < 20
    · have h1 : ((k+1 : ℕ) : ℚ) < 20 := by exact_mod_cast hlt
      have hnotle : ¬ ((t : ℚ) ≤ ((k+1 : ℕ) : ℚ) * (t : ℚ) / 20) := by
        rw [not_le, div_lt_iff₀ (by norm_num : (0:ℚ) < 20)]
        nlinarith
      rw [if_neg hnotle]
      exact ⟨rfl, fun _ => rfl, fun h20 => by omega⟩
    · have h20 : k + 1 = 20 := by omega
      have hceq : ((k+1 : ℕ) : ℚ) * (t : ℚ) / 20 = (t : ℚ) := by
        rw [h20]; push_cast; ring
      rw [if_pos (le_of_eq hceq.symm)]
      exact ⟨rfl, fun hlt2 => by omega, fun _ => ⟨rfl, rfl⟩⟩

lemma ramp_displayed_le (t : ℤ) (h : 0 ≤ t) :
    ∀ k, (rampIter t k).displayed ≤ t := by
  intro k
  induction k with
  | zero => simpa [rampIter] using h
  | succ k ih =>
    rw [rampIter_succ]
    simp only [rampTick]
    by_cases ha : (rampIter t k).active
    · rw [if_pos ha]
      by_cases hc : (t : ℚ) ≤ (rampIter t k).current + (t : ℚ) / 20
      · rw [if_pos hc]
      · rw [if_neg hc]
        exact jsRound_le_of_lt (not_le.mp hc)
    · rw [if_neg ha]
      exact ih

/-- Claim C9: starting from displayed value 0 with a known nonnegative target,
every tick of the display ramp adds `target/20` to the accumulator (so after
`k ≤ 20` ticks the accumulator is `k·target/20`), the timer stays active for
the first 19 ticks and, for a positive target, is cancelled on tick 20 with
the displayed value snapped exactly to the target; the displayed value never
exceeds the target at any tick. -/
theorem display_ramp_spec (target : ℤ) (h : 0 ≤ target) :
    (∀ k, (rampIter target k).displayed ≤ target) ∧
    (0 < target →
      (∀ k ≤ 20, (rampIter target k).current = (k : ℚ) * (target : ℚ) / 20) ∧
      (∀ k < 20, (rampIter target k).active = true) ∧
      (rampIter target 20).active = false ∧
      (rampIter target 20).displayed = target) := by
  refine ⟨ramp_displayed_le target h, fun ht => ?_⟩
  refine ⟨fun k hk => (ramp_phase target ht k hk).1,
    fun k hk => (ramp_phase target ht k (by omega)).2.1 hk,
    ((ramp_phase target ht 20 le_rfl).2.2 rfl).1,
    ((ramp_phase target ht 20 le_rfl).2.2 rfl).2⟩

/-- Claim C9, witness: with target 100 the ramp is still active after 19
ticks, terminates exactly on tick 20 with displayed value snapped to 100,
and the displayed value never exceeds 100 (shown at tick 7). -/
theorem display_ramp_spec_witness :
    (0 : ℤ) ≤ 100 ∧
    (rampIter 100 19).active = true ∧
    (rampIter 100 20).active = false ∧
    (rampIter 100 20).displayed = 100 ∧
    (rampIter 100 7).displayed ≤ 100 := by
  have h := display_ramp_spec 100 (by norm_num)
  have h2 := h.2 (by norm_num)
  exact ⟨by norm_num, h2.2.1 19 (by norm_num), h2.2.2.1, h2.2.2.2, h.1 7⟩

/-! ### Interpreter helper lemmas -/

lemma getLast?_cons_of_ne_nil {a : ℚ} {l : List ℚ} (h : l ≠ []) :
    (a :: l).getLast? = l.getLast? := by
  match l, h with
  | b :: t, _ => exact List.getLast?_cons_cons

lemma ne_nil_of_head?_eq_some {l : List ℚ} {x : ℚ} (h : l.head? = some x) :
    l ≠ [] := by
  cases l with
  | nil => simp at h
  | cons a t => simp

lemma latLoop_frame (env : Env) :
    ∀ (fuel i : ℕ) (pings : List ℚ) (s : DashState) (tr : List ℚ),
      (latLoop env i fuel pings s tr).1.testing = s.testing ∧
      (latLoop env i fuel pings s tr).1.logs = s.logs ∧
      (latLoop env i fuel pings s tr).1.history = s.history ∧
      (latLoop env i fuel pings s tr).1.metrics = s.metrics := by
  intro fuel
  induction fuel with
  | zero =>
    intro i pings s tr
    simp [latLoop]
  | succ f ih =>
    intro i pings s tr
    rcases hp : env.ping i with e | r
    · simp [latLoop, hp]
    · simp only [latLoop, hp]
      exact ih (i+1) (pings ++ [r]) _ _

lemma latLoop_none_iff (env : Env) :
    ∀ (fuel i : ℕ) (pings : List ℚ) (s : DashState) (tr : List ℚ),
      ((latLoop env i fuel pings s tr).2.2 = none ↔
        ∃ j, j < fuel ∧ (env.ping (i + j)).toOption = none) := by
  intro fuel
  induction fuel with
  | zero =>
    intro i pings s tr
    simp [latLoop]
  | succ f ih =>
    intro i pings s tr
    rcases hp : env.ping i with e | r
    · simp only [latLoop, hp]
      refine iff_of_true (by simp) ⟨0, by omega, ?_⟩
      simp [hp, Except.toOption]
    · simp only [latLoop, hp]
      rw [ih (i+1) (pings ++ [r]) _ _]
      constructor
      · rintro ⟨j, hj, hjp⟩
        refine ⟨j + 1, by omega, ?_⟩
        have he : i + 1 + j = i + (j + 1) := by omega
        rwa [he] at hjp
      · rintro ⟨j, hj, hjp⟩
        cases j with
        | zero =>
          exfalso
          rw [Nat.add_zero, hp] at hjp
          simp [Except.toOption] at hjp
        | succ j2 =>
          refine ⟨j2, by omega, ?_⟩
          have he : i + 1 + j2 = i + (j2 + 1) := by omega
          rwa [he]

lemma dlLoop_frame :
    ∀ (bs : List (Except Unit ℚ)) (elapsed : ℚ) (samples : List ℚ)
      (s : DashState) (tr : List ℚ),
      (dlLoop bs elapsed samples s tr).1.testing = s.testing ∧
      (dlLoop bs elapsed samples s tr).1.logs = s.logs ∧
      (dlLoop bs elapsed samples s tr).1.history = s.history := by
  intro bs
  induction bs with
  | nil =>
    intro elapsed samples s tr
    simp [dlLoop]
  | cons b rest ih =>
    intro elapsed samples s tr
    by_cases he : elapsed < 6000
    · rcases b with e | dur
      · simp [dlLoop, if_pos he]
      · simp only [dlLoop, if_pos he]
        exact ih _ _ _ _
    · simp [dlLoop, if_neg he]

lemma dlLoop_none_iff :
    ∀ (bs : List (Except Unit ℚ)) (elapsed : ℚ) (samples : List ℚ)
      (s : DashState) (tr : List ℚ),
      ((dlLoop bs elapsed samples s tr).2.2 = none ↔
        dlFails bs elapsed = true) := by
  intro bs
  induction bs with
  | nil =>
    intro elapsed samples s tr
    simp [dlLoop, dlFails]
  | cons b rest ih =>
    intro elapsed samples s tr
    by_cases he : elapsed < 6000
    · rcases b with e | dur
      · simp [dlLoop, dlFails, if_pos he]
      · simp only [dlLoop, dlFails, if_pos he]
        exact ih _ _ _ _
    · simp [dlLoop, dlFails, if_neg he]

lemma upRampLoop_frame (target : ℤ) :
    ∀ (fuel : ℕ) (cur : ℚ) (s : DashState) (tr : List ℚ),
      (upRampLoop target fuel cur s tr).1.testing = s.testing ∧
      (upRampLoop target fuel cur s tr).1.logs = s.logs ∧
      (upRampLoop target fuel cur s tr).1.history = s.history := by
  intro fuel
  induction fuel with
  | zero =>
    intro cur s tr
    simp [upRampLoop]
  | succ f ih =>
    intro cur s tr
    by_cases hc : (target : ℚ) ≤ cur + (target : ℚ) / 20
    · simp [upRampLoop, if_pos hc]
    · simp only [upRampLoop, if_neg hc]
      exact ih _ _ _

lemma latLoop_trace (env : Env) :
    ∀ (fuel i : ℕ) (pings : List ℚ) (s : DashState) (tr : List ℚ),
      tr.head? = some s.progress → Mono tr → tr.getLast? = some 0 →
      s.progress ≤ 5 + (i : ℚ) →
      ((latLoop env i fuel pings s tr).2.1.head? =
          some (latLoop env i fuel pings s tr).1.progress ∧
       Mono (latLoop env i fuel pings s tr).2.1 ∧
       (latLoop env i fuel pings s tr).2.1.getLast? = some 0 ∧
       (latLoop env i fuel pings s tr).1.progress ≤ 5 + (i : ℚ) + (fuel : ℚ)) := by
  intro fuel
  induction fuel with
  | zero =>
    intro i pings s tr h1 h2 h3 h4
    simp only [latLoop]
    exact ⟨h1, h2, h3, by push_cast; linarith⟩
  | succ f ih =>
    intro i pings s tr h1 h2 h3 h4
    rcases hp : env.ping i with e | r
    · simp only [latLoop, hp]
      exact ⟨h1, h2, h3, by push_cast; linarith⟩
    · simp only [latLoop, hp]
      have h1' : ((5 + (i : ℚ)) :: tr).head? =
          some (({ s with progress := 5 + (i : ℚ) } : DashState).progress) := rfl
      have h2' : Mono ((5 + (i : ℚ)) :: tr) := by
        rw [Mono, List.chain'_cons']
        refine ⟨fun y hy => ?_, h2⟩
        rw [h1] at hy
        simp only [Option.mem_def, Option.some.injEq] at hy
        subst hy
        exact h4
      have h3' : ((5 + (i : ℚ)) :: tr).getLast? = some 0 := by
        rw [getLast?_cons_of_ne_nil (ne_nil_of_head?_eq_some h1)]
        exact h3
      have h4' : ({ s with progress := 5 + (i : ℚ) } : DashState).progress ≤
          5 + ((i + 1 : ℕ) : ℚ) := by
        show (5 + (i : ℚ)) ≤ 5 + ((i + 1 : ℕ) : ℚ)
        push_cast
        linarith
      have hrec := ih (i+1) (pings ++ [r]) { s with progress := 5 + (i : ℚ) }
        ((5 + (i : ℚ)) :: tr) h1' h2' h3' h4'
      refine ⟨hrec.1, hrec.2.1, hrec.2.2.1, ?_⟩
      have := hrec.2.2.2
      push_cast at this ⊢
      linarith

lemma dlLoop_trace :
    ∀ (bs : List (Except Unit ℚ)) (elapsed : ℚ) (samples : List ℚ)
      (s : DashState) (tr : List ℚ),
      (∀ d, Except.ok d ∈ bs → 0 ≤ d) →
      tr.head? = some s.progress → Mono tr → tr.getLast? = some 0 →
      s.progress ≤ 20 + (elapsed / 6000) * 60 → s.progress ≤ 80 →
      ((dlLoop bs elapsed samples s tr).2.1.head? =
          some (dlLoop bs elapsed samples s tr).1.progress ∧
       Mono (dlLoop bs elapsed samples s tr).2.1 ∧
       (dlLoop bs elapsed samples s tr).2.1.getLast? = some 0 ∧
       (dlLoop bs elapsed samples s tr).1.progress ≤ 80) := by
  intro bs
  induction bs with
  | nil =>
    intro elapsed samples s tr hd h1 h2 h3 h5 h6
    simp only [dlLoop]
    exact ⟨h1, h2, h3, h6⟩
  | cons b rest ih =>
    intro elapsed samples s tr hd h1 h2 h3 h5 h6
    by_cases he : elapsed < 6000
    · rcases b with e | dur
      · simp only [dlLoop, if_pos he]
        exact ⟨h1, h2, h3, h6⟩
      · simp only [dlLoop, if_pos he]
        have hdur : 0 ≤ dur := hd dur (List.mem_cons_self _ _)
        have hmono : 20 + (elapsed / 6000) * 60 ≤
            20 + ((elapsed + dur) / 6000) * 60 := by
          have hdd : elapsed / 6000 ≤ (elapsed + dur) / 6000 := by
            gcongr
            linarith
          linarith
        have hsp : s.progress ≤
            min (20 + ((elapsed + dur) / 6000) * 60) 80 :=
          le_min (by linarith) h6
        have h1' : (min (20 + ((elapsed + dur) / 6000) * 60) 80 :: tr).head? =
            some ((min (20 + ((elapsed + dur) / 6000) * 60) 80 : ℚ)) := rfl
        have h2' : Mono (min (20 + ((elapsed + dur) / 6000) * 60) 80 :: tr) := by
          rw [Mono, List.chain'_cons']
          refine ⟨fun y hy => ?_, h2⟩
          rw [h1] at hy
          simp only [Option.mem_def, Option.some.injEq] at hy
          subst hy
          exact hsp
        have h3' : (min (20 + ((elapsed + dur) / 6000) * 60) 80 :: tr).getLast? =
            some 0 := by
          rw [getLast?_cons_of_ne_nil (ne_nil_of_head?_eq_some h1)]
          exact h3
        have hd' : ∀ d, Except.ok d ∈ rest → 0 ≤ d :=
          fun d hdm => hd d (List.mem_cons_of_mem _ hdm)
        exact ih (elapsed + dur) _ _ _ hd' h1' h2' h3'
          (min_le_left _ _) (min_le_right _ _)
    · simp only [dlLoop, if_neg he]
      exact ⟨h1, h2, h3, h6⟩

lemma upRampLoop_trace (target : ℤ) :
    ∀ (fuel : ℕ) (cur : ℚ) (s : DashState) (tr : List ℚ),
      tr.head? = some s.progress → Mono tr → tr.getLast? = some 0 →
      s.progress ≤ 100 →
      ((upRampLoop target fuel cur s tr).2.head? =
          some (upRampLoop target fuel cur s tr).1.progress ∧
       Mono (upRampLoop target fuel cur s tr).2 ∧
       (upRampLoop target fuel cur s tr).2.getLast? = some 0 ∧
       (upRampLoop target fuel cur s tr).1.progress ≤ 100) := by
  intro fuel
  induction fuel with
  | zero =>
    intro cur s tr h1 h2 h3 h4
    simp only [upRampLoop]
    exact ⟨h1, h2, h3, h4⟩
  | succ f ih =>
    intro cur s tr h1 h2 h3 h4
    have hstep : s.progress ≤ min (s.progress + 1) 100 :=
      le_min (by linarith) h4
    have h2' : (min (s.progress + 1) 100 :: tr).Chain' (fun a b => b ≤ a) := by
      rw [List.chain'_cons']
      refine ⟨fun y hy => ?_, h2⟩
      rw [h1] at hy
      simp only [Option.mem_def, Option.some.injEq] at hy
      subst hy
      exact hstep
    have h3' : (min (s.progress + 1) 100 :: tr).getLast? = some 0 := by
      rw [getLast?_cons_of_ne_nil (ne_nil_of_head?_eq_some h1)]
      exact h3
    by_cases hc : (target : ℚ) ≤ cur + (target : ℚ) / 20
    · simp only [upRampLoop, if_pos hc]
      exact ⟨rfl, h2', h3', min_le_right _ _⟩
    · simp only [upRampLoop, if_neg hc]
      apply ih
      · rfl
      · exact h2'
      · exact h3'
      · exact min_le_right _ _

/-! ### Claim C7 — exclusive run flag -/

/-- Claim C7: invoking the run operation while `testing` is true is a silent
no-op, not an error: it returns immediately and the whole dashboard state —
metrics, progress, Result History and Event Log — is left unchanged. -/
theorem run_noop_when_testing (env : Env) (s : DashState)
    (h : s.testing = true) :
    runSpeedTest env s = (s, RunOutcome.skipped, []) := by
  rw [runSpeedTest, if_pos h]

/-- Claim C7, witness: a second invocation on a busy dashboard returns the
state untouched. -/
theorem run_noop_when_testing_witness :
    sBusy.testing = true ∧
    runSpeedTest envGood sBusy = (sBusy, RunOutcome.skipped, []) :=
  ⟨rfl, run_noop_when_testing envGood sBusy rfl⟩

/-! ### Claim C2 — error handling of the run -/

/-- Claim C2, counterexample: a failing latency probe is NOT caught inside
the run: with the very first probe rejecting, the exception escapes the run
operation, the `testing` flag stays `true`, and no error entry is appended
to the Event Log (the log holds only the run-start info entry). -/
theorem latency_failure_not_caught :
    (runSpeedTest envPingFail sIdle).2.1 = RunOutcome.escaped ∧
    (runSpeedTest envPingFail sIdle).1.testing = true ∧
    errorCount (runSpeedTest envPingFail sIdle).1.logs = 0 := by
  norm_num [runSpeedTest, envPingFail, sIdle, startState, latLoop, addLog,
    errorCount]
  decide

/-- Claim C2 (amended): only the throughput phase of the run sits inside the
catch: if the run ends in the caught state then `testing` is released and the
head of the Event Log is an error entry, and a throughput-batch failure
within the time budget (after a clean latency phase) does end the run in the
caught state; but the run escapes with an uncaught exception exactly when
some latency probe fails, in which case `testing` remains `true` and no
error entry is appended. -/
theorem run_error_handling (env : Env) (s : DashState)
    (h : s.testing = false) :
    ((runSpeedTest env s).2.1 = RunOutcome.caught →
      (runSpeedTest env s).1.testing = false ∧
      ∃ e, (runSpeedTest env s).1.logs.head? = some e ∧
        e.type = LogType.error) ∧
    ((runSpeedTest env s).2.1 = RunOutcome.escaped →
      (runSpeedTest env s).1.testing = true ∧
      errorCount (runSpeedTest env s).1.logs ≤ errorCount s.logs) ∧
    ((runSpeedTest env s).2.1 = RunOutcome.escaped ↔ ¬ latOk env) ∧
    (latOk env → dlFails env.batches 0 = true →
      (runSpeedTest env s).2.1 = RunOutcome.caught) := by
  have hne : ¬ (s.testing = true) := by simp [h]
  rcases hl : latLoop env 0 10 [] (startState s) [0] with ⟨s5, tr5, o5⟩
  have hframe := latLoop_frame env 10 0 [] (startState s) [0]
  rw [hl] at hframe
  have hiff := latLoop_none_iff env 10 0 [] (startState s) [0]
  rw [hl] at hiff
  simp only [runSpeedTest, if_neg hne, hl]
  cases o5 with
  | none =>
    have hlat : ¬ latOk env := by
      obtain ⟨j, hj, hjn⟩ := hiff.mp rfl
      rw [Nat.zero_add] at hjn
      intro hall
      exact hall j hj hjn
    refine ⟨?_, ?_, ?_, ?_⟩
    · intro hc
      simp at hc
    · intro _
      refine ⟨by rw [hframe.1]; rfl, ?_⟩
      rw [hframe.2.1]
      show errorCount (startState s).logs ≤ errorCount s.logs
      have hsub :
          List.Sublist ((⟨LogType.info,
              "Starting Precision Diagnostics..."⟩ :: s.logs).take 50)
            (⟨LogType.info, "Starting Precision Diagnostics..."⟩ :: s.logs) :=
        List.take_sublist _ _
      calc errorCount (startState s).logs
          ≤ errorCount (⟨LogType.info,
              "Starting Precision Diagnostics..."⟩ :: s.logs) :=
            hsub.countP_le _
        _ = errorCount s.logs := by
            rw [errorCount, errorCount, List.countP_cons_of_neg]
            simp
    · exact iff_of_true rfl hlat
    · intro hlo _
      exact absurd hlo hlat
  | some pings =>
    have hlat : latOk env := by
      intro i hi hnone
      have := hiff.mpr ⟨i, hi, by rwa [Nat.zero_add]⟩
      simp at this
    rcases hd : dlLoop env.batches 0 [] (pingState pings s5) tr5
      with ⟨s7, tr7, o7⟩
    have hdiff := dlLoop_none_iff env.batches 0 [] (pingState pings s5) tr5
    rw [hd] at hdiff
    simp only [runAfterLatency, hd]
    cases o7 with
    | none =>
      refine ⟨?_, ?_, ?_, ?_⟩
      · intro _
        exact ⟨rfl,
          ⟨⟨LogType.error, "Speed test failed (CORS/Network Error)"⟩, rfl, rfl⟩⟩
      · intro habs
        simp at habs
      · exact iff_of_false (by simp) (by simpa using hlat)
      · intro _ _
        rfl
    | some samples =>
      simp only [runAfterSamples]
      cases hagg : finalAggregate samples with
      | error u =>
        refine ⟨?_, ?_, ?_, ?_⟩
        · intro _
          exact ⟨rfl,
            ⟨⟨LogType.error, "Speed test failed (CORS/Network Error)"⟩, rfl, rfl⟩⟩
        · intro habs
          simp at habs
        · exact iff_of_false (by simp) (by simpa using hlat)
        · intro _ _
          rfl
      | ok fS =>
        rcases hr : upRampLoop (estimateUpload fS env.rtt) 25 0
            { s7 with metrics := { s7.metrics with download := fS } } tr7
          with ⟨s9, tr9⟩
        simp only [hr]
        refine ⟨?_, ?_, ?_, ?_⟩
        · intro habs
          simp at habs
        · intro habs
          simp at habs
        · exact iff_of_false (by simp) (by simpa using hlat)
        · intro _ hdf
          exfalso
          have := hdiff.mpr hdf
          simp at this

/-- Claim C2, witness: on an idle dashboard the escape characterisation is
available, and with the all-good environment no latency probe fails. -/
theorem run_error_handling_witness :
    sIdle.testing = false ∧
    ((runSpeedTest envGood sIdle).2.1 = RunOutcome.escaped ↔
      ¬ latOk envGood) ∧
    latOk envGood :=
  ⟨rfl, (run_error_handling envGood sIdle rfl).2.2.1,
   fun i _ hnone => by simp [envGood, Except.toOption] at hnone⟩

/-! ### Claim C3 — progress of a run -/

/-- Claim C3, counterexample: a run whose first throughput batch fails ends
in the caught terminal state (the `testing` flag is released) with progress
still at 14 — it is NOT forced to 100 on failure. -/
theorem failed_run_progress_not_100 :
    (runSpeedTest envBatchFail sIdle).2.1 = RunOutcome.caught ∧
    (runSpeedTest envBatchFail sIdle).1.testing = false ∧
    (runSpeedTest envBatchFail sIdle).1.progress = 14 ∧
    (runSpeedTest envBatchFail sIdle).1.progress ≠ 100 := by
  norm_num [runSpeedTest, envBatchFail, sIdle, startState, pingState,
    catchState, latLoop, runAfterLatency, dlLoop, addLog, avgPingOf,
    jitterOf, mean, maxQ, minQ, jsRound]

/-- Claim C3 (amended): within a single run progress is monotonically
non-decreasing over time and starts from 0 at run start; when the run
completes successfully it ends at exactly 100.  (On a caught throughput
failure the run terminates with progress keeping its last value below 100,
and on a latency failure the exception escapes — see the counterexample.) -/
theorem run_progress_monotone (env : Env) (s : DashState)
    (h1 : s.testing = false)
    (h2 : ∀ d, Except.ok d ∈ env.batches → 0 ≤ d) :
    Mono (runSpeedTest env s).2.2 ∧
    (runSpeedTest env s).2.2.getLast? = some 0 ∧
    ((runSpeedTest env s).2.1 = RunOutcome.completed →
      (runSpeedTest env s).1.progress = 100 ∧
      (runSpeedTest env s).2.2.head? = some 100) := by
  have hne : ¬ (s.testing = true) := by simp [h1]
  rcases hl : latLoop env 0 10 [] (startState s) [0] with ⟨s5, tr5, o5⟩
  have htr := latLoop_trace env 10 0 [] (startState s) [0] rfl
    (List.chain'_singleton 0) rfl (by show (0:ℚ) ≤ 5 + ((0:ℕ):ℚ); norm_num)
  rw [hl] at htr
  simp only [runSpeedTest, if_neg hne, hl]
  cases o5 with
  | none =>
    refine ⟨htr.2.1, htr.2.2.1, ?_⟩
    intro habs
    simp at habs
  | some pings =>
    have hb15 : s5.progress ≤ 15 := by
      have hb := htr.2.2.2
      push_cast at hb
      linarith
    rcases hd : dlLoop env.batches 0 [] (pingState pings s5) tr5
      with ⟨s7, tr7, o7⟩
    have hdt := dlLoop_trace env.batches 0 [] (pingState pings s5) tr5 h2
      htr.1 htr.2.1 htr.2.2.1
      (by show s5.progress ≤ 20 + (0 / 6000) * 60; norm_num; linarith)
      (by show s5.progress ≤ 80; linarith)
    rw [hd] at hdt
    simp only [runAfterLatency, hd]
    cases o7 with
    | none =>
      refine ⟨hdt.2.1, hdt.2.2.1, ?_⟩
      intro habs
      simp at habs
    | some samples =>
      simp only [runAfterSamples]
      cases hagg : finalAggregate samples with
      | error u =>
        refine ⟨hdt.2.1, hdt.2.2.1, ?_⟩
        intro habs
        simp at habs
      | ok fS =>
        rcases hr : upRampLoop (estimateUpload fS env.rtt) 25 0
            { s7 with metrics := { s7.metrics with download := fS } } tr7
          with ⟨s9, tr9⟩
        have hrt := upRampLoop_trace (estimateUpload fS env.rtt) 25 0
          { s7 with metrics := { s7.metrics with download := fS } } tr7
          hdt.1 hdt.2.1 hdt.2.2.1
          (by show s7.progress ≤ 100; linarith [hdt.2.2.2])
        rw [hr] at hrt
        simp only [hr]
        refine ⟨?_, ?_, ?_⟩
        · rw [Mono, List.chain'_cons']
          refine ⟨fun y hy => ?_, hrt.2.1⟩
          rw [hrt.1] at hy
          simp only [Option.mem_def, Option.some.injEq] at hy
          subst hy
          linarith [hrt.2.2.2]
        · rw [getLast?_cons_of_ne_nil (ne_nil_of_head?_eq_some hrt.1)]
          exact hrt.2.2.1
        · intro _
          exact ⟨rfl, rfl⟩

/-- Claim C3, witness: on an idle dashboard with the all-good environment
(whose single batch duration is nonnegative), the progress trace of the run
is monotone and starts at 0. -/
theorem run_progress_monotone_witness :
    sIdle.testing = false ∧
    (∀ d, Except.ok d ∈ envGood.batches → 0 ≤ d) ∧
    Mono (runSpeedTest envGood sIdle).2.2 ∧
    (runSpeedTest envGood sIdle).2.2.getLast? = some 0 := by
  have hb : ∀ d, Except.ok d ∈ envGood.batches → 0 ≤ d := by
    intro d hd
    simp only [envGood, List.mem_singleton, Except.ok.injEq] at hd
    subst hd
    norm_num
  have hmain := run_progress_monotone envGood sIdle rfl hb
  exact ⟨rfl, hb, hmain.1, hmain.2.1⟩

/-! ### Claim C5 — upload derivation (run-level part) -/

/-- Claim C5 (amended): upload is never independently measured — every
completed run publishes as upload exactly the upload estimator applied to
the published download figure and the connection-quality hint, where the
estimator multiplies by the fixed factor 0.8 (hint present with rtt < 15 ms)
or 0.2 (otherwise) and rounds; when the hint capability is absent the
estimator uses the fixed default factor 0.2 — it does not fall back to any
ping-derived heuristic (the measured ping is not an input at all). -/
theorem upload_derived_from_download (env : Env) (s : DashState)
    (h : s.testing = false) :
    ((runSpeedTest env s).2.1 = RunOutcome.completed →
      (runSpeedTest env s).1.metrics.upload =
        estimateUpload (runSpeedTest env s).1.metrics.download env.rtt) ∧
    (∀ d : ℤ, estimateUpload d none = jsRound ((d : ℚ) * (1/5))) := by
  refine ⟨?_, fun d => rfl⟩
  have hne : ¬ (s.testing = true) := by simp [h]
  rcases hl : latLoop env 0 10 [] (startState s) [0] with ⟨s5, tr5, o5⟩
  simp only [runSpeedTest, if_neg hne, hl]
  cases o5 with
  | none =>
    intro habs
    simp at habs
  | some pings =>
    rcases hd : dlLoop env.batches 0 [] (pingState pings s5) tr5
      with ⟨s7, tr7, o7⟩
    simp only [runAfterLatency, hd]
    cases o7 with
    | none =>
      intro habs
      simp at habs
    | some samples =>
      simp only [runAfterSamples]
      cases hagg : finalAggregate samples with
      | error u =>
        intro habs
        simp at habs
      | ok fS =>
        rcases hr : upRampLoop (estimateUpload fS env.rtt) 25 0
            { s7 with metrics := { s7.metrics with download := fS } } tr7
          with ⟨s9, tr9⟩
        simp only [hr]
        intro _
        rfl

set_option maxRecDepth 4000 in
/-- Claim C5, witness: in the all-good environment (no connection hint) the
run completes and publishes upload `estimateUpload download none`; with the
hint absent the factor is the fixed 0.2, e.g. `estimateUpload 3 none =
round(3 * 1/5) = 1`. -/
theorem upload_derived_from_download_witness :
    sIdle.testing = false ∧
    (runSpeedTest envGood sIdle).2.1 = RunOutcome.completed ∧
    (runSpeedTest envGood sIdle).1.metrics.upload =
      estimateUpload (runSpeedTest envGood sIdle).1.metrics.download
        envGood.rtt ∧
    estimateUpload 3 none = jsRound ((3 : ℚ) * (1/5)) := by
  have hc : (runSpeedTest envGood sIdle).2.1 = RunOutcome.completed := by
    norm_num [runSpeedTest, envGood, sIdle, startState, pingState, catchState,
      latLoop, runAfterLatency, runAfterSamples, dlLoop, addLog, avgPingOf,
      jitterOf, mean, maxQ, minQ, jsRound, finalAggregate, List.insertionSort,
      List.orderedInsert, estimateUpload, upRampLoop, saveResultList, mkResult]
  have hmain := upload_derived_from_download envGood sIdle rfl
  exact ⟨rfl, hc, hmain.1 hc, hmain.2 3⟩
